import Mathlib

/-!
Verification development for the `merlinz01/ldapserver` Go repository.

The repository's BER codec, LDAP result / bind-request decoders, search
filter decoder and RFC 4514 DN parser/formatter are shallowly embedded
below.  Go byte slices are embedded as `List Nat` (each entry a byte value
in `[0,255]`); Go `int64` arithmetic is embedded as `Int` with explicit
wrap-around (`% 2 ^ 64`) where the Go code can overflow; fallible Go
functions return `Except`; a Go runtime panic is modelled as `none` in an
outer `Option` layer.  Bounded Go `for` loops whose termination metric is
not syntactically structural take an explicit fuel argument that is always
instantiated with a provably sufficient bound, as noted at each site.
-/

set_option maxRecDepth 8192

deriving instance DecidableEq for Except

namespace LdapServer

/-- Error kinds of the library's `LDAPError` values (errors.go).  The
`(key, value)` diagnostic payloads are irrelevant to every claim and are
dropped; `eof` stands for the `io` read errors (`io.EOF`,
`io.ErrUnexpectedEOF`) surfaced by the readers.  `invalidDN` is
`ErrInvalidDN` referenced by `ParseDN`. -/
inductive Err where
  | invalidBoolean
  | invalidLDAPMessage
  | invalidMessageID
  | invalidOID
  | integerTooLarge
  | tlsAlreadySetUp
  | tlsNotAvailable
  | wrongElementType
  | wrongSequenceLength
  | invalidDN
  | eof
deriving DecidableEq, Repr

/-- BER type classes (`BerClassXXX` constants, ber.go). -/
def berClassUniversal : Nat := 0x00

/-- Context-specific BER class bits. -/
def berClassContextSpecific : Nat := 0x80

/-- Go `BerContextSpecificType(tag, constructed)`: context-specific class
bits or-ed with the tag, plus the constructed bit when requested. -/
def berContextSpecificType (tag : Nat) (constructed : Bool) : Nat :=
  if constructed then (berClassContextSpecific ||| tag) ||| 0x20
  else berClassContextSpecific ||| tag

/-- Go `BerType.Class()`: `t & 0b11000000`. -/
def berClass (t : Nat) : Nat := t &&& 0xc0

/-- Go `BerType.IsConstructed()`: `(t & 0b00100000) == 0b00100000`. -/
def berIsConstructed (t : Nat) : Bool := t &&& 0x20 = 0x20

/-- Go `BerType.TagNumber()`: `t & 0b00011111`. -/
def berTagNumber (t : Nat) : Nat := t &&& 0x1f

/-- Universal BER type codes (ber.go constants). -/
def berTypeBoolean : Nat := 0x01

/-- BER INTEGER type code. -/
def berTypeInteger : Nat := 0x02

/-- BER OCTET STRING type code. -/
def berTypeOctetString : Nat := 0x04

/-- BER ENUMERATED type code. -/
def berTypeEnumerated : Nat := 0x0a

/-- BER SEQUENCE type code (constructed). -/
def berTypeSequence : Nat := 0x30

/-- BER SET type code (constructed). -/
def berTypeSet : Nat := 0x31

/-- Go `BerRawElement`: a type byte and the raw payload bytes. -/
structure BerRawElement where
  etype : Nat
  data : List Nat
deriving DecidableEq, Repr

/-- Inner loop of Go `BerReadSize`: read `n` big-endian size bytes into a
`uint32` accumulator (`res <<= 8; res |= uint32(b)`; after the shift the
low eight bits are zero, so the or is addition of the byte). -/
def readSizeBytes : Nat → Nat → List Nat → Except Err (Nat × List Nat)
  | 0, res, s => .ok (res, s)
  | n + 1, res, s =>
    match s with
    | [] => .error .eof
    | b :: rest => readSizeBytes n (((res <<< 8) % 2 ^ 32) + b) rest

/-- Go `BerReadSize`: one byte below `0x80` is the size itself; otherwise
the byte minus `0x80` counts the following big-endian size bytes, and more
than four of them is `ErrIntegerTooLarge`. -/
def berReadSize (s : List Nat) : Except Err (Nat × List Nat) :=
  match s with
  | [] => .error .eof
  | b :: rest =>
    if b < 0x80 then .ok (b, rest)
    else
      let nbytes := b - 0x80
      if nbytes > 4 then .error .integerTooLarge
      else readSizeBytes nbytes 0 rest

/-- Go `BerReadElement`: type byte, then the size, then exactly `size`
payload bytes (a short read is an error, as with `io.ReadFull`). -/
def berReadElement (s : List Nat) : Except Err (BerRawElement × List Nat) :=
  match s with
  | [] => .error .eof
  | tp :: rest =>
    match berReadSize rest with
    | .error e => .error e
    | .ok (length, rest) =>
      if rest.length < length then .error .eof
      else .ok (⟨tp, rest.take length⟩, rest.drop length)

/-- Loop of Go `BerGetSequence`: read elements until the reader is empty.
The fuel argument only bounds the iteration count; every successfully read
element consumes at least two bytes, so the wrapper's `data.length` fuel
can never run out (the `.error .eof` fuel case is unreachable). -/
def berGetSequenceAux : Nat → List Nat → Except Err (List BerRawElement)
  | _, [] => .ok []
  | 0, _ :: _ => .error .eof
  | fuel + 1, s =>
    match berReadElement s with
    | .error e => .error e
    | .ok (elmt, rest) =>
      match berGetSequenceAux fuel rest with
      | .error e => .error e
      | .ok elmts => .ok (elmt :: elmts)

/-- Go `BerGetSequence` (and its alias `BerGetSet`). -/
def berGetSequence (data : List Nat) : Except Err (List BerRawElement) :=
  berGetSequenceAux data.length data

/-- Go `BerGetBoolean`: the payload must be exactly one byte; zero is
false, anything else is true. -/
def berGetBoolean (data : List Nat) : Except Err Bool :=
  match data with
  | [b] => .ok (b != 0)
  | _ => .error .invalidBoolean

/-- Go `BerGetInteger` (and its alias `BerGetEnumerated`): at most eight
bytes; the bytes are accumulated into an `int64` (`n <<= 8; n |= int64(b)`,
embedded with explicit wrap-around mod `2 ^ 64`; the or is addition because
the shift clears the low byte), then sign-extended by shifting left and
arithmetically right by `64 - 8*len` bits.  An arithmetic right shift of an
`int64` is flooring division by the corresponding power of two, which for a
shift of 64 (the zero-length case) also matches Go's defined behaviour. -/
def berGetInteger (data : List Nat) : Except Err Int :=
  if data.length > 8 then .error .integerTooLarge
  else
    let n : Nat := data.foldl (fun n b => (((n <<< 8) % 2 ^ 64) + b % 256)) 0
    let sh : Nat := 64 - 8 * data.length
    let m : Nat := (n <<< sh) % 2 ^ 64
    let v : Int := if m < 2 ^ 63 then (m : Int) else (m : Int) - 2 ^ 64
    .ok (Int.fdiv v (2 ^ sh))

/-- Go `BerEncodeBoolean`. -/
def berEncodeBoolean (b : Bool) : List Nat :=
  if b then [berTypeBoolean, 1, 0xff] else [berTypeBoolean, 1, 0x00]

/-- First counting loop of Go `BerEncodeIntegerRaw`:
`for i > 127 { numBytes++; i >>= 8 }`.  Note that the Go loop shifts the
very variable `i` that is later serialised.  The arithmetic right shift is
`Int.fdiv · 256`.  The fuel argument bounds the iteration count; 64
iterations cover every `int64` (eight suffice), so the fuel case is
unreachable on the `int64` domain. -/
def shrPosLoop : Nat → Int × Nat → Int × Nat
  | 0, st => st
  | f + 1, (i, numBytes) =>
    if i > 127 then shrPosLoop f (Int.fdiv i 256, numBytes + 1) else (i, numBytes)

/-- Second counting loop of Go `BerEncodeIntegerRaw`:
`for i < -128 { numBytes++; i >>= 8 }` (same fuel remark). -/
def shrNegLoop : Nat → Int × Nat → Int × Nat
  | 0, st => st
  | f + 1, (i, numBytes) =>
    if i < -128 then shrNegLoop f (Int.fdiv i 256, numBytes + 1) else (i, numBytes)

/-- Go `byte(i >> k)` for an `int64` value: the low eight bits of the
two's-complement representation of the arithmetically shifted value. -/
def intByte (i : Int) : Nat := (Int.emod i 256).toNat

/-- Output loop of Go `BerEncodeIntegerRaw`: for `numBytes` down to 1 emit
`byte(i >> uint((numBytes-1)*8))`. -/
def writeIntBytes (i : Int) : Nat → List Nat
  | 0 => []
  | nb + 1 => intByte (Int.fdiv i (2 ^ (nb * 8))) :: writeIntBytes i nb

/-- Go `BerEncodeIntegerRaw`: run both counting loops (which destructively
shift `i`), then serialise the final value of `i` over `numBytes` bytes. -/
def berEncodeIntegerRaw (i : Int) : List Nat :=
  let st := shrNegLoop 64 (shrPosLoop 64 (i, 1))
  writeIntBytes st.1 st.2

/-- Go `BerEncodeElement`: short length form below `0x80`, otherwise a
count byte `0x82`/`0x83`/`0x84` followed by that many big-endian size
bytes; larger sizes panic (`none`).  `byte((size&0xff00)>>8)` and friends
are the base-256 digits `size / 256 % 256` etc. -/
def berEncodeElement (etype : Nat) (data : List Nat) : Option (List Nat) :=
  let size := data.length
  if size < 0x80 then
    some (etype :: size :: data)
  else if size ≤ 0xffff then
    some (etype :: 0x82 :: size / 256 % 256 :: size % 256 :: data)
  else if size ≤ 0xffffff then
    some (etype :: 0x83 :: size / 65536 % 256 :: size / 256 % 256 :: size % 256 :: data)
  else if size ≤ 0xffffffff then
    some (etype :: 0x84 :: size / 16777216 % 256 :: size / 65536 % 256 ::
      size / 256 % 256 :: size % 256 :: data)
  else
    none

/-- Go `BerEncodeInteger`. -/
def berEncodeInteger (i : Int) : Option (List Nat) :=
  berEncodeElement berTypeInteger (berEncodeIntegerRaw i)

/-- Go `BerEncodeEnumerated`. -/
def berEncodeEnumerated (i : Int) : Option (List Nat) :=
  berEncodeElement berTypeEnumerated (berEncodeIntegerRaw i)

/-- Go `BerEncodeOctetString`. -/
def berEncodeOctetString (s : List Nat) : Option (List Nat) :=
  berEncodeElement berTypeOctetString s

/-- Go `BerEncodeSequence`. -/
def berEncodeSequence (data : List Nat) : Option (List Nat) :=
  berEncodeElement berTypeSequence data

/-- Go `BerEncodeSet`. -/
def berEncodeSet (data : List Nat) : Option (List Nat) :=
  berEncodeElement berTypeSet data

/-! Result codes and the `Result` record (result.go).  Only the constants
relevant to the claims are reproduced; the values are copied from the
source's `const` block, whose surrounding comments read `// 70 reserved`
and `// 72-79 unused`. -/

/-- Go `LDAPResultObjectClassModsProhibited LDAPResultCode = 69`. -/
def ldapResultObjectClassModsProhibited : Nat := 69

/-- Go `LDAPResultAffectsMultibleDSAs LDAPResultCode = 70` (sic: the
source assigns 70, directly below its `// 70 reserved` comment; the
identically-valued `ResultAffectsMultibleDSAs` constant appears in the
second copy of the result-code block). -/
def ldapResultAffectsMultibleDSAs : Nat := 70

/-- Go `LDAPResultOther LDAPResultCode = 80`. -/
def ldapResultOther : Nat := 80

/-- Go `LDAPResultProtocolError LDAPResultCode = 2` (also
`ResultProtocolError`). -/
def ldapResultProtocolError : Nat := 2

/-- Go `Result`: result code (a `uint32`), matched DN, diagnostic message
and the optional referral URI list (result.go). -/
structure Result where
  resultCode : Nat
  matchedDN : List Nat
  diagnosticMessage : List Nat
  referral : List (List Nat)
deriving DecidableEq, Repr

/-- Body of Go `GetResult` after the sequence has been split: check the
three mandatory members (enumerated result code, two octet strings) and
the optional context-specific tag-3 referral member, whose sub-elements
are read back with `BerGetOctetString` without any type check.
`LDAPResultCode(resultCode)` is the `int64`-to-`uint32` conversion,
i.e. the value mod `2 ^ 32`. -/
def getResultCore (s0 s1 s2 : BerRawElement) (s3? : Option BerRawElement) :
    Except Err Result :=
  if s0.etype ≠ berTypeEnumerated then .error .wrongElementType
  else
    match berGetInteger s0.data with
    | .error e => .error e
    | .ok resultCode =>
      if s1.etype ≠ berTypeOctetString then .error .wrongElementType
      else if s2.etype ≠ berTypeOctetString then .error .wrongElementType
      else
        match s3? with
        | none => .ok ⟨(Int.emod resultCode (2 ^ 32)).toNat, s1.data, s2.data, []⟩
        | some s3 =>
          if berClass s3.etype ≠ berClassContextSpecific ∨ berTagNumber s3.etype ≠ 3 then
            .error .wrongElementType
          else
            match berGetSequence s3.data with
            | .error e => .error e
            | .ok rseq =>
              .ok ⟨(Int.emod resultCode (2 ^ 32)).toNat, s1.data, s2.data,
                rseq.map (·.data)⟩

/-- Go `GetResult`: decode the payload as a sequence of three or four
members and delegate to `getResultCore`. -/
def getResult (data : List Nat) : Except Err Result :=
  match berGetSequence data with
  | .error e => .error e
  | .ok [s0, s1, s2] => getResultCore s0 s1 s2 none
  | .ok [s0, s1, s2, s3] => getResultCore s0 s1 s2 (some s3)
  | .ok _ => .error .wrongSequenceLength

/-- Referral serialisation loop of Go `Result.Encode`: concatenate the
BER octet-string encodings of the URIs. -/
def encodeReferrals : List (List Nat) → Option (List Nat)
  | [] => some []
  | ref :: rest => do
    let e ← berEncodeOctetString ref
    let es ← encodeReferrals rest
    pure (e ++ es)

/-- Go `Result.Encode`: enumerated result code, two octet strings, and —
only when the referral list is non-empty — the referral URI list wrapped
with `BerEncodeSequence` (universal SEQUENCE, type byte `0x30`). -/
def resultEncode (r : Result) : Option (List Nat) := do
  let e ← berEncodeEnumerated (r.resultCode : Int)
  let m ← berEncodeOctetString r.matchedDN
  let d ← berEncodeOctetString r.diagnosticMessage
  if r.referral.length > 0 then
    let refs ← encodeReferrals r.referral
    let rs ← berEncodeSequence refs
    pure (e ++ m ++ d ++ rs)
  else
    pure (e ++ m ++ d)

/-! BindRequest decoding (bind.go) and the engine's Bind dispatch
(server.go `LDAPServer.handleMessage`). -/

/-- Application-class operation type codes (`TypeXXXOp` constants). -/
def typeBindRequestOp : Nat := 0x60

/-- The BindResponse operation type code. -/
def typeBindResponseOp : Nat := 0x61

/-- Go `BindRequest.Credentials any`: a simple password string, a
`*SASLCredentials` pair, or `nil` for unknown authentication tags. -/
inductive BindCredentials where
  | simple (password : List Nat)
  | sasl (mechanism : List Nat) (credentials : List Nat)
  | none
deriving DecidableEq, Repr

/-- Go `BindRequest` (bind.go): `Version uint8`, name, the authentication
choice tag number, and the credentials variant. -/
structure BindRequest where
  version : Nat
  name : List Nat
  authType : Nat
  credentials : BindCredentials
deriving DecidableEq, Repr

/-- Authentication-choice tail of Go `GetBindRequest`, after the version
has passed its `[1,127]` range check: switch on the context-specific tag
of the third member (0 = simple, 3 = SASL sequence of mechanism and
optional credentials, anything else = nil credentials).
`uint8(version)` is the value mod 256. -/
def bindAuthChoice (version : Int) (name : List Nat) (s2 : BerRawElement) :
    Except Err BindRequest :=
  if berTagNumber s2.etype = 0 then
    .ok ⟨(Int.emod version 256).toNat, name, berTagNumber s2.etype, .simple s2.data⟩
  else if berTagNumber s2.etype = 3 then
    match berGetSequence s2.data with
    | .error e => .error e
    | .ok [m] =>
      if m.etype ≠ berTypeOctetString then .error .wrongElementType
      else .ok ⟨(Int.emod version 256).toNat, name, berTagNumber s2.etype, .sasl m.data []⟩
    | .ok [m, c] =>
      if m.etype ≠ berTypeOctetString then .error .wrongElementType
      else if c.etype ≠ berTypeOctetString then .error .wrongElementType
      else .ok ⟨(Int.emod version 256).toNat, name, berTagNumber s2.etype, .sasl m.data c.data⟩
    | .ok _ => .error .wrongSequenceLength
  else
    .ok ⟨(Int.emod version 256).toNat, name, berTagNumber s2.etype, .none⟩

/-- Go `GetBindRequest`: a three-member sequence of an integer version
(rejected unless `1 ≤ version ≤ 127`), an octet-string name, and a
context-specific authentication choice. -/
def getBindRequest (data : List Nat) : Except Err BindRequest :=
  match berGetSequence data with
  | .error e => .error e
  | .ok [s0, s1, s2] =>
    if s0.etype ≠ berTypeInteger then .error .wrongElementType
    else
      match berGetInteger s0.data with
      | .error e => .error e
      | .ok version =>
        if version < 1 ∨ version > 127 then .error .invalidLDAPMessage
        else if s1.etype ≠ berTypeOctetString then .error .wrongElementType
        else if berClass s2.etype ≠ berClassContextSpecific then .error .wrongElementType
        else bindAuthChoice version s1.data s2
  | .ok _ => .error .wrongSequenceLength

/-- Observable outcome of the engine's Bind dispatch branch: notify
disconnect and close on a decode error, send a result message itself, or
(after draining the in-flight counter) invoke the handler's Bind
callback. -/
inductive BindDispatch where
  | disconnectAndClose
  | sendResult (messageID : Nat) (opType : Nat) (resultCode : Nat)
  | callHandlerBind (req : BindRequest)
deriving DecidableEq, Repr

/-- The `TypeBindRequestOp` branch of Go `LDAPServer.handleMessage`
(server.go): parse the Bind request (on failure notify disconnect with
`ResultProtocolError` and close); if the parsed version is not 3, the
engine itself sends a BindResponse carrying
`ResultProtocolError.AsResult(...)` on the request's message ID and
returns without calling the handler; otherwise it waits for the in-flight
counter and runs `Handler.Bind`. -/
def handleBindMessage (messageID : Nat) (opData : List Nat) : BindDispatch :=
  match getBindRequest opData with
  | .error _ => .disconnectAndClose
  | .ok req =>
    if req.version ≠ 3 then
      .sendResult messageID typeBindResponseOp ldapResultProtocolError
    else
      .callHandlerBind req

/-! Search filter decoding (filter.go `GetFilter`). -/

/-- Filter type constants (filter.go): the wire tag numbers 0–9 plus the
out-of-band sentinels for an empty And (`AbsoluteTrue`, `0xa0`) and an
empty Or (`AbsoluteFalse`, `0xa1`). -/
def filterTypeAnd : Nat := 0

/-- Or filter type. -/
def filterTypeOr : Nat := 1

/-- Not filter type. -/
def filterTypeNot : Nat := 2

/-- EqualityMatch filter type. -/
def filterTypeEqual : Nat := 3

/-- Substrings filter type. -/
def filterTypeSubstrings : Nat := 4

/-- GreaterOrEqual filter type. -/
def filterTypeGreaterOrEqual : Nat := 5

/-- LessOrEqual filter type. -/
def filterTypeLessOrEqual : Nat := 6

/-- Present filter type. -/
def filterTypePresent : Nat := 7

/-- ApproxMatch filter type. -/
def filterTypeApproxMatch : Nat := 8

/-- ExtensibleMatch filter type. -/
def filterTypeExtensibleMatch : Nat := 9

/-- Sentinel for an empty And filter. -/
def filterTypeAbsoluteTrue : Nat := 0xa0

/-- Sentinel for an empty Or filter. -/
def filterTypeAbsoluteFalse : Nat := 0xa1

/-- Go `AttributeValueAssertion` (attribute.go). -/
structure AttributeValueAssertion where
  description : List Nat
  value : List Nat
deriving DecidableEq, Repr

/-- Go `GetAttributeValueAssertion` (attribute.go): a two-member sequence
of octet strings. -/
def getAttributeValueAssertion (data : List Nat) :
    Except Err AttributeValueAssertion :=
  match berGetSequence data with
  | .error e => .error e
  | .ok [s0, s1] =>
    if s0.etype ≠ berTypeOctetString then .error .wrongElementType
    else if s1.etype ≠ berTypeOctetString then .error .wrongElementType
    else .ok ⟨s0.data, s1.data⟩
  | .ok _ => .error .wrongSequenceLength

/-- Go `SubstringFilter` (filter.go). -/
structure SubstringFilter where
  attrib : List Nat
  initial : List Nat
  anyParts : List (List Nat)
  final : List Nat
deriving DecidableEq, Repr

/-- Go `MatchingRuleAssertion` (filter.go). -/
structure MatchingRuleAssertion where
  matchingRule : List Nat
  attrib : List Nat
  value : List Nat
  dnAttributes : Bool
deriving DecidableEq, Repr

/-- Substring collection loop of Go `GetFilter`'s `FilterTypeSubstrings`
branch: context-specific tag 0 fills `Initial` (at most once), tag 1
appends to `Any`, tag 2 fills `Final` (at most once); other tags or
classes are `ErrWrongElementType`. -/
def substrLoop : List BerRawElement → SubstringFilter → Except Err SubstringFilter
  | [], sf => .ok sf
  | rs :: rest, sf =>
    if berClass rs.etype ≠ berClassContextSpecific then .error .wrongElementType
    else if berTagNumber rs.etype = 0 then
      if sf.initial ≠ [] then .error .wrongElementType
      else substrLoop rest { sf with initial := rs.data }
    else if berTagNumber rs.etype = 1 then
      substrLoop rest { sf with anyParts := sf.anyParts ++ [rs.data] }
    else if berTagNumber rs.etype = 2 then
      if sf.final ≠ [] then .error .wrongElementType
      else substrLoop rest { sf with final := rs.data }
    else .error .wrongElementType

/-- One optional-member step of Go `GetFilter`'s `FilterTypeExtensibleMatch`
branch: `if len(seq) > i && seq[i].Type == BerContextSpecificType(tag, false)`
consumes the member and advances the index. -/
def peelOptional (tag : Nat) (seq : List BerRawElement) :
    List Nat × List BerRawElement :=
  match seq with
  | [] => ([], [])
  | s :: rest =>
    if s.etype = berContextSpecificType tag false then (s.data, rest) else ([], seq)

/-- ExtensibleMatch body of Go `GetFilter`: optional context-specific[1]
matching rule, optional context-specific[2] attribute, then the remaining
members must be one mandatory context-specific[3] match value optionally
followed by a context-specific[4] boolean (`len(seq) <= i` and
`len(seq) > i+2` are the remaining-length checks). -/
def getMatchingRuleAssertion (seq : List BerRawElement) :
    Except Err MatchingRuleAssertion :=
  let p1 := peelOptional 1 seq
  let p2 := peelOptional 2 p1.2
  match p2.2 with
  | [] => .error .wrongSequenceLength
  | s3 :: rest =>
    if rest.length > 1 then .error .wrongSequenceLength
    else if s3.etype ≠ berContextSpecificType 3 false then .error .wrongElementType
    else
      match rest with
      | [] => .ok ⟨p1.1, p2.1, s3.data, false⟩
      | s4 :: _ =>
        if s4.etype ≠ berContextSpecificType 4 false then .error .wrongElementType
        else
          match berGetBoolean s4.data with
          | .error e => .error e
          | .ok dna => .ok ⟨p1.1, p2.1, s3.data, dna⟩

/-- Go `Filter`: the `Type` byte together with the `Data any` payload; one
constructor per dynamic type the source stores in `Data` (`[]Filter`,
`*Filter`, `*AttributeValueAssertion`, `*SubstringFilter`, `string`,
`*MatchingRuleAssertion`, `*BerRawElement`). -/
inductive Filter where
  | node (ftype : Nat) (children : List Filter)
  | negation (ftype : Nat) (child : Filter)
  | ava (ftype : Nat) (a : AttributeValueAssertion)
  | substrings (ftype : Nat) (s : SubstringFilter)
  | present (ftype : Nat) (attrib : List Nat)
  | mra (ftype : Nat) (m : MatchingRuleAssertion)
  | raw (ftype : Nat) (r : BerRawElement)

/-- Go `GetFilter` (filter.go), with an explicit recursion fuel.  The
structure is: require a context-specific element; map an empty constructed
tag-0/tag-1 payload to the AbsoluteTrue/AbsoluteFalse sentinel type; then
switch on the filter type.  The fuel only bounds the recursion into
sub-filters (And/Or members and the Not child); sub-elements are strictly
shorter than their parent's payload, so the `raw.data.length`-based fuel
supplied by the `getFilter` wrapper never runs out. -/
def getFilterAux : Nat → BerRawElement → Except Err Filter
  | 0, _ => .error .eof
  | fuel + 1, raw =>
    if berClass raw.etype ≠ berClassContextSpecific then .error .wrongElementType
    else
      let ftype :=
        if raw.etype = berContextSpecificType 0 true ∧ raw.data.length = 0 then
          filterTypeAbsoluteTrue
        else if raw.etype = berContextSpecificType 1 true ∧ raw.data.length = 0 then
          filterTypeAbsoluteFalse
        else berTagNumber raw.etype
      if ftype = filterTypeAnd ∨ ftype = filterTypeOr then
        match berGetSequence raw.data with
        | .error e => .error e
        | .ok seq =>
          match seq.mapM (getFilterAux fuel) with
          | .error e => .error e
          | .ok filters => .ok (.node ftype filters)
      else if ftype = filterTypeNot then
        match berReadElement raw.data with
        | .error e => .error e
        | .ok (elmt, _) =>
          match getFilterAux fuel elmt with
          | .error e => .error e
          | .ok f => .ok (.negation ftype f)
      else if ftype = filterTypeEqual ∨ ftype = filterTypeGreaterOrEqual ∨
          ftype = filterTypeLessOrEqual ∨ ftype = filterTypeApproxMatch then
        match getAttributeValueAssertion raw.data with
        | .error e => .error e
        | .ok a => .ok (.ava ftype a)
      else if ftype = filterTypeSubstrings then
        match berGetSequence raw.data with
        | .error e => .error e
        | .ok [t, subs] =>
          if t.etype ≠ berTypeOctetString then .error .wrongElementType
          else if subs.etype ≠ berTypeSequence then .error .wrongElementType
          else
            match berGetSequence subs.data with
            | .error e => .error e
            | .ok sseq =>
              match substrLoop sseq ⟨t.data, [], [], []⟩ with
              | .error e => .error e
              | .ok sf => .ok (.substrings ftype sf)
        | .ok _ => .error .wrongSequenceLength
      else if ftype = filterTypePresent then
        .ok (.present ftype raw.data)
      else if ftype = filterTypeExtensibleMatch then
        match berGetSequence raw.data with
        | .error e => .error e
        | .ok seq =>
          match getMatchingRuleAssertion seq with
          | .error e => .error e
          | .ok m => .ok (.mra ftype m)
      else
        .ok (.raw ftype raw)

/-- Entry point for `GetFilter`.  Any chain of recursive decoding steps
strictly shrinks the payload, so `raw.data.length + 1` fuel suffices for
every input. -/
def getFilter (raw : BerRawElement) : Except Err Filter :=
  getFilterAux (raw.data.length + 1) raw

/-! RFC 4514 DN parsing and formatting (dn.go, the version whose
`ParseDN` rejects attributes without an `=`). -/

/-- Go `RDNAttribute`: an attribute type and value (dn.go).  The Go field
`Type` is rendered `atype`. -/
structure RDNAttribute where
  atype : List Nat
  value : List Nat
deriving DecidableEq, Repr

/-- Go `RDN`: a list of RDN attributes. -/
abbrev RDN := List RDNAttribute

/-- Go `DN`: a list of RDNs, root first (reversed relative to the RFC 4514
string form). -/
abbrev DN := List RDN

/-- Go backslash scan in `splitRDNs`/`splitAttrs`:
`slash_index := i - 1; for slash_index >= 0 && s[slash_index] == '\\' { slash_index-- }`.
The argument and result are the Go index plus one, so that `0` stands for
the Go sentinel `-1`. -/
def slashScan (s : List Nat) : Nat → Nat
  | 0 => 0
  | j + 1 => if s.getD j 0 = 92 then slashScan s j else j + 1

/-- Shared loop of Go `splitRDNs` and `splitAttrs`: walk the string,
splitting at every separator preceded by an even number of backslashes
(Go `(i - slash_index) % 2 == 1`, i.e. `(i + 1 - slashScan s i) % 2 = 1`),
and finally emit `s[start:]`.  The `rest` argument is the cursor's view
`s.drop i`; the absolute string is retained for the `s[start:i]` slices
and the backslash scan. -/
def splitSepLoop (s : List Nat) (sep : Nat) :
    List Nat → Nat → Nat → List (List Nat)
  | [], _, start => [(s.drop start).take (s.length - start)]
  | c :: rest, i, start =>
    if c = sep ∧ (i + 1 - slashScan s i) % 2 = 1 then
      (s.drop start).take (i - start) :: splitSepLoop s sep rest (i + 1) (i + 1)
    else splitSepLoop s sep rest (i + 1) start

/-- Go `splitRDNs`: empty input gives nil; otherwise split at unescaped
commas and reverse the order. -/
def splitRDNs (s : List Nat) : List (List Nat) :=
  match s with
  | [] => []
  | _ :: _ => (splitSepLoop s 44 s 0 0).reverse

/-- Go `splitAttrs`: empty input gives nil; otherwise split at unescaped
plus signs (no reversal). -/
def splitAttrs (s : List Nat) : List (List Nat) :=
  match s with
  | [] => []
  | _ :: _ => splitSepLoop s 43 s 0 0

/-- Scan of Go `splitAttr` (`strings.SplitN(s, "=", 2)`): the accumulator
holds the bytes before the cursor in reverse. -/
def splitAttrGo : List Nat → List Nat → List (List Nat)
  | [], acc => [acc.reverse]
  | c :: rest, acc =>
    if c = 61 then [acc.reverse, rest] else splitAttrGo rest (c :: acc)

/-- Go `splitAttr`: split at the first `=` into at most two parts. -/
def splitAttr (s : List Nat) : List (List Nat) :=
  splitAttrGo s []

/-- Hex-digit value accepted by Go `strconv.ParseUint(_, 16, 8)`. -/
def parseHexDigit (c : Nat) : Option Nat :=
  if 48 ≤ c ∧ c ≤ 57 then some (c - 48)
  else if 97 ≤ c ∧ c ≤ 102 then some (c - 87)
  else if 65 ≤ c ∧ c ≤ 70 then some (c - 55)
  else none

/-- Go `strconv.ParseUint(s[i+1:i+3], 16, 8)` on its two characters: both
must be hex digits; two hex digits never overflow eight bits. -/
def parseUintHex2 (c1 c2 : Nat) : Option Nat :=
  match parseHexDigit c1, parseHexDigit c2 with
  | some h1, some h2 => some (h1 * 16 + h2)
  | _, _ => none

/-- Escape-decoding loop of Go `DecodeRDNAttributeValue` (the non-`#`
branch).  A backslash followed by a special character yields that
character; a backslash followed by two characters forming a hex pair
yields the byte; otherwise the backslash itself is kept (and a trailing
backslash with nothing after it is dropped, exactly as in the source
where nothing is appended when `i+1 >= len(s)`).  The loop advances by
one, two or three characters per iteration; the fuel argument (always
instantiated with the string length by `unescapeLoop`, which therefore
never hits the unreachable 0-fuel case) only bounds the iteration
count. -/
def unescapeLoopAux : Nat → List Nat → List Nat
  | _, [] => []
  | 0, _ :: _ => []
  | fuel + 1, b :: rest =>
    if b = 92 then
      match rest with
      | [] => []
      | b2 :: rest2 =>
        if b2 = 34 ∨ b2 = 43 ∨ b2 = 44 ∨ b2 = 59 ∨ b2 = 60 ∨ b2 = 62 ∨
            b2 = 32 ∨ b2 = 92 ∨ b2 = 61 ∨ b2 = 35 then
          b2 :: unescapeLoopAux fuel rest2
        else
          match rest2 with
          | [] => 92 :: unescapeLoopAux fuel rest
          | b3 :: rest3 =>
            match parseUintHex2 b2 b3 with
            | some bi => bi :: unescapeLoopAux fuel rest3
            | none => 92 :: unescapeLoopAux fuel rest
    else b :: unescapeLoopAux fuel rest

/-- Escape-decoding loop of Go `DecodeRDNAttributeValue`, at its always
sufficient fuel. -/
def unescapeLoop (s : List Nat) : List Nat :=
  unescapeLoopAux s.length s

/-- Hex-pair loop of the `#` branch of Go `DecodeRDNAttributeValue`:
`for i := 1; i < len(s); i += 2 { b := (s[i]-'0')<<4 + (s[i+1]-'0') }`
over the bytes after the `#`.  All arithmetic is byte arithmetic
(wrapping mod 256) and no hex-digit validation is performed.  When a
single byte remains, the Go code reads `s[i+1]` one past the end of the
string and panics: that is the `none` case. -/
def hexPairsLoop : List Nat → Option (List Nat)
  | [] => some []
  | [_] => none
  | c1 :: c2 :: rest =>
    match hexPairsLoop rest with
    | none => none
    | some bs =>
      some (((((c1 + 256 - 48) % 256) * 16) % 256 + (c2 + 256 - 48) % 256) % 256 :: bs)

/-- Go `DecodeRDNAttributeValue`: empty strings pass through; a leading
`#` selects the hex-encoded-BER branch (decode the hex pairs — possibly
panicking, `none` — then read one BER element that must be an octet
string); anything else is escape-decoded.  The outer `Option` is the
panic layer. -/
def decodeRDNAttributeValue (s : List Nat) : Option (Except Err (List Nat)) :=
  match s with
  | [] => some (.ok [])
  | c :: rest =>
    if c = 35 then
      match hexPairsLoop rest with
      | none => none
      | some buf =>
        match berReadElement buf with
        | .error e => some (.error e)
        | .ok (elmt, _) =>
          if elmt.etype ≠ berTypeOctetString then some (.error .wrongElementType)
          else some (.ok elmt.data)
    else some (.ok (unescapeLoop (c :: rest)))

/-- Character loop of Go `OID.Validate`'s regular expression
`^[0-9]+(\.[0-9]+)*$`: the flag records whether at least one digit has
been seen in the current dot-separated group. -/
def oidMatch : List Nat → Bool → Bool
  | [], seenDigit => seenDigit
  | c :: rest, seenDigit =>
    if 48 ≤ c ∧ c ≤ 57 then oidMatch rest true
    else if c = 46 then seenDigit && oidMatch rest false
    else false

/-- Go `OID.Validate() == nil`: the string matches `^[0-9]+(\.[0-9]+)*$`. -/
def oidValidate (s : List Nat) : Bool :=
  oidMatch s false

/-- Go `unicode.IsPrint(rune(b))` for a byte `b`: over the Latin-1 range
Go declares printable the ASCII graphic characters and space
(`0x20`–`0x7E`) and `0xA1`–`0xFF` except the soft hyphen `0xAD`. -/
def goIsPrint (b : Nat) : Bool :=
  (32 ≤ b ∧ b ≤ 126) ∨ (161 ≤ b ∧ b ≤ 255 ∧ b ≠ 173)

/-- Uppercase hex digit, as produced by `strconv.FormatUint(_, 16)`
followed by `strings.ToUpper`. -/
def hexDigitUpper (n : Nat) : Nat :=
  if n < 10 then 48 + n else 55 + n

/-- Two-character zero-padded uppercase hex rendering of a byte. -/
def hexPairUpper (b : Nat) : List Nat :=
  [hexDigitUpper (b / 16 % 16), hexDigitUpper (b % 16)]

/-- Escaping loop of Go `RDNAttribute.String` (the non-OID branch): walk
the value bytes with their index; space is escaped only first or last,
`#` only first, the special characters always, NUL becomes `\00`, and
non-printable bytes become uppercase `\XX`. -/
def escapeValueLoop (vlen : Nat) : Nat → List Nat → List Nat
  | _, [] => []
  | i, b :: rest =>
    if b = 32 then
      if i = 0 ∨ i = vlen - 1 then 92 :: b :: escapeValueLoop vlen (i + 1) rest
      else b :: escapeValueLoop vlen (i + 1) rest
    else if b = 35 then
      if i = 0 then 92 :: b :: escapeValueLoop vlen (i + 1) rest
      else b :: escapeValueLoop vlen (i + 1) rest
    else if b = 34 ∨ b = 43 ∨ b = 44 ∨ b = 59 ∨ b = 60 ∨ b = 62 ∨ b = 92 ∨ b = 61 then
      92 :: b :: escapeValueLoop vlen (i + 1) rest
    else if b = 0 then
      92 :: 48 :: 48 :: escapeValueLoop vlen (i + 1) rest
    else if goIsPrint b then
      b :: escapeValueLoop vlen (i + 1) rest
    else
      92 :: (hexPairUpper b ++ escapeValueLoop vlen (i + 1) rest)

/-- Go `RDNAttribute.String`: when the attribute type validates as a
numeric OID the value is emitted as `#` followed by the uppercase hex of
its `BerEncodeOctetString` encoding (whose possible panic propagates as
`none`); otherwise the value is character-escaped.  Both branches are
prefixed with `Type + "="`. -/
def rdnAttributeString (a : RDNAttribute) : Option (List Nat) :=
  if oidValidate a.atype then do
    let enc ← berEncodeOctetString a.value
    pure (a.atype ++ 61 :: 35 :: (enc.map hexPairUpper).flatten
      )
  else
    pure (a.atype ++ 61 :: escapeValueLoop a.value.length 0 a.value)

/-- Attribute loop of Go `RDN.String`: collect each attribute's string. -/
def rdnAttributeStrings : List RDNAttribute → Option (List (List Nat))
  | [] => some []
  | a :: rest => do
    let s ← rdnAttributeString a
    let ss ← rdnAttributeStrings rest
    pure (s :: ss)

/-- Join with a separator byte, mirroring the Go string-building loops
that prepend the separator before every part except the first. -/
def joinSep (sep : Nat) : List (List Nat) → List Nat
  | [] => []
  | [x] => x
  | x :: xs => x ++ sep :: joinSep sep xs

/-- Go `RDN.String`: the attribute strings joined with `+`. -/
def rdnString (r : RDN) : Option (List Nat) := do
  let parts ← rdnAttributeStrings r
  pure (joinSep 43 parts)

/-- RDN loop of Go `DN.String`: the loop runs `i` from `len(d)-1` down to
0, so the emitted order is the reverse of the in-memory order. -/
def rdnStrings : List RDN → Option (List (List Nat))
  | [] => some []
  | r :: rest => do
    let s ← rdnString r
    let ss ← rdnStrings rest
    pure (s :: ss)

/-- Go `DN.String`: the RDN strings, leaf first, joined with commas. -/
def dnString (d : DN) : Option (List Nat) := do
  let parts ← rdnStrings d.reverse
  pure (joinSep 44 parts)

/-- Attribute loop of Go `ParseDN`: each attribute string is split at its
first `=` (fewer than two parts is `ErrInvalidDN`) and its value is
escape-decoded; a decoding panic (`none`) propagates. -/
def parseAttrList : List (List Nat) → Option (Except Err (List RDNAttribute))
  | [] => some (.ok [])
  | attr :: rest =>
    match splitAttr attr with
    | [t, v] =>
      match decodeRDNAttributeValue v with
      | none => none
      | some (.error e) => some (.error e)
      | some (.ok value) =>
        match parseAttrList rest with
        | none => none
        | some (.error e) => some (.error e)
        | some (.ok r) => some (.ok (⟨t, value⟩ :: r))
    | _ => some (.error .invalidDN)

/-- RDN loop of Go `ParseDN`. -/
def parseRDNList : List (List Nat) → Option (Except Err DN)
  | [] => some (.ok [])
  | rdn :: rest =>
    match parseAttrList (splitAttrs rdn) with
    | none => none
    | some (.error e) => some (.error e)
    | some (.ok r) =>
      match parseRDNList rest with
      | none => none
      | some (.error e) => some (.error e)
      | some (.ok dn) => some (.ok (r :: dn))

/-- Go `ParseDN`: split into RDN strings (reversed to root-first order)
and parse each.  `none` models a runtime panic. -/
def parseDN (s : List Nat) : Option (Except Err DN) :=
  parseRDNList (splitRDNs s)

/-! Claim theorems. -/

/-- C1.  The claim states that `BerGetInteger (BerEncodeIntegerRaw i)`
round-trips every signed 64-bit integer, with 128 encoding as
`0x00 0x80`.  The code violates this: the counting loops of
`BerEncodeIntegerRaw` destructively shift `i`, so 128 is encoded as the
two zero bytes `0x00 0x00`, which decode to 0 (while the single-byte
range, e.g. 0 and −128, is still encoded as the claim describes). -/
theorem c1_encode_integer_128_breaks_roundtrip :
    berEncodeIntegerRaw 128 = [0x00, 0x00] ∧
    berGetInteger (berEncodeIntegerRaw 128) = .ok 0 ∧
    berGetInteger (berEncodeIntegerRaw 128) ≠ .ok 128 ∧
    berEncodeIntegerRaw 0 = [0x00] ∧
    berEncodeIntegerRaw (-128) = [0x80] := by
  decide

/-- C2.  The claim states that `GetResult (r.Encode())` round-trips every
`Result`, the encoder emitting the referral list as the context-specific
tag-3 element the decoder requires.  The code violates this: `Result.Encode`
wraps a non-empty referral list with `BerEncodeSequence` (universal
SEQUENCE, type byte `0x30`), and `GetResult` rejects that fourth member
with `ErrWrongElementType` because its class is not context-specific.
Witnessed on the result with code 0, empty DNs and the single referral
URI `"a"`. -/
theorem c2_result_referral_roundtrip_fails :
    resultEncode ⟨0, [], [], [[0x61]]⟩ =
      some [0x0a, 1, 0, 0x04, 0, 0x04, 0, 0x30, 3, 0x04, 1, 0x61] ∧
    getResult [0x0a, 1, 0, 0x04, 0, 0x04, 0, 0x30, 3, 0x04, 1, 0x61] =
      .error .wrongElementType := by
  decide

/-- C3 counterexample.  The string `cn=\41` is a valid RFC 4514 DN string
(a hex-pair escape), `ParseDN` accepts it — decoding the value to `A` —
but formatting the result yields `cn=A`, not the original string.  So
`format (parse s) = s` fails on this valid `s`. -/
theorem c3_counterexample_escaped_hex_not_preserved :
    parseDN [0x63, 0x6e, 0x3d, 0x5c, 0x34, 0x31] =
      some (.ok [[⟨[0x63, 0x6e], [0x41]⟩]]) ∧
    dnString [[⟨[0x63, 0x6e], [0x41]⟩]] = some [0x63, 0x6e, 0x3d, 0x41] ∧
    ([0x63, 0x6e, 0x3d, 0x41] : List Nat) ≠ [0x63, 0x6e, 0x3d, 0x5c, 0x34, 0x31] := by
  decide

/-- C4 counterexample.  The claim states that `GetFilter` returns an error
for an extensibleMatch element whose inner sequence has neither a
context-specific[1] matchingRule nor a context-specific[2] attribute.  The
code accepts such an element: decoding the constructed context-specific
tag-9 element whose payload is the single context-specific[3] match value
`x` succeeds, with both optional fields left empty. -/
theorem c4_counterexample_bare_matchvalue_accepted :
    getFilter ⟨0xa9, [0x83, 0x01, 0x78]⟩ =
      .ok (.mra filterTypeExtensibleMatch ⟨[], [], [0x78], false⟩) :=
  rfl

/-- C5 counterexample.  The claim states that a payload whose size lies in
`[0x80, 0xFF]` is length-encoded as the count byte `0x81` followed by one
size byte.  The code never emits `0x81`: a 128-byte payload is encoded
with the two-byte long form `0x82 0x00 0x80`. -/
theorem c5_counterexample_no_one_byte_long_form :
    berEncodeElement 0x04 (List.replicate 0x80 0) ≠
      some (0x04 :: 0x81 :: 0x80 :: List.replicate 0x80 0) ∧
    berEncodeElement 0x04 (List.replicate 0x80 0) =
      some (0x04 :: 0x82 :: 0x00 :: 0x80 :: List.replicate 0x80 0) := by
  decide

/-- C7.  Decoding a constructed context-specific[0] element with empty
payload yields the `AbsoluteTrue` sentinel filter and a constructed
context-specific[1] element with empty payload yields the distinct
`AbsoluteFalse` sentinel, both without error. -/
theorem c7_empty_and_or_sentinels :
    getFilter ⟨0xa0, []⟩ = .ok (.raw filterTypeAbsoluteTrue ⟨0xa0, []⟩) ∧
    getFilter ⟨0xa1, []⟩ = .ok (.raw filterTypeAbsoluteFalse ⟨0xa1, []⟩) ∧
    filterTypeAbsoluteTrue ≠ filterTypeAbsoluteFalse :=
  ⟨rfl, rfl, by decide⟩

/-- C8.  The claim (and RFC 4511) assign `affectsMultipleDSAs` the value
71; the source assigns 70 — directly below its own `// 70 reserved`
comment and above `// 72-79 unused` — in both copies of the constant
block (`LDAPResultAffectsMultibleDSAs` and `ResultAffectsMultibleDSAs`).
The neighbouring values 69 and 80 match the claim. -/
theorem c8_affects_multiple_dsas_is_70_not_71 :
    ldapResultAffectsMultibleDSAs = 70 ∧
    ldapResultAffectsMultibleDSAs ≠ 71 ∧
    ldapResultObjectClassModsProhibited = 69 ∧
    ldapResultOther = 80 := by
  decide

/-- C10.  The claim states that `ParseDN` never panics, in particular that
`DecodeRDNAttributeValue` never indexes out of bounds on hex-form values
of odd remaining length.  The code violates this: on the value `#0` the
hex loop reads `s[i+1]` at `i+1 = len(s)` (modelled as `none`), so
`ParseDN "a=#0"` panics instead of returning an error. -/
theorem c10_hex_value_odd_length_panics :
    decodeRDNAttributeValue [0x23, 0x30] = none ∧
    parseDN [0x61, 0x3d, 0x23, 0x30] = none := by
  decide

/-- MatchingRuleAssertion body on a sequence with no optional members:
when the sequence is a context-specific[3] matchValue alone (dnAttributes
defaults to false) or that matchValue followed by a context-specific[4]
element holding a well-formed boolean, the decoder succeeds with empty
matchingRule and attribute. -/
theorem getMatchingRuleAssertion_no_optional (v : List Nat) (dna : Bool)
    (tail : List BerRawElement)
    (htail : (tail = [] ∧ dna = false) ∨
      ∃ b, tail = [⟨0x84, b⟩] ∧ berGetBoolean b = .ok dna) :
    getMatchingRuleAssertion (⟨0x83, v⟩ :: tail) = .ok ⟨[], [], v, dna⟩ := by
  rcases htail with ⟨rfl, rfl⟩ | ⟨b, rfl, hb⟩
  · rfl
  · simp [getMatchingRuleAssertion, peelOptional, berContextSpecificType,
      berClassContextSpecific, hb]

/-- C4 amended.  For every BER element with constructed context-specific
tag 9 whose inner sequence contains neither a context-specific[1]
matchingRule element nor a context-specific[2] attribute element,
`GetFilter` does not reject the assertion: when the sequence is a
context-specific[3] matchValue alone, or such a matchValue followed by a
context-specific[4] element holding a well-formed one-byte boolean,
decoding succeeds and returns a `MatchingRuleAssertion` with empty
matchingRule and attribute, its dnAttributes taken from the `[4]` boolean
(false when absent). -/
theorem c4_amended_bare_matchvalue_decodes (data v : List Nat) (dna : Bool)
    (tail : List BerRawElement)
    (h : berGetSequence data = .ok (⟨0x83, v⟩ :: tail))
    (htail : (tail = [] ∧ dna = false) ∨
      ∃ b, tail = [⟨0x84, b⟩] ∧ berGetBoolean b = .ok dna) :
    getFilter ⟨0xa9, data⟩ =
      .ok (.mra filterTypeExtensibleMatch ⟨[], [], v, dna⟩) := by
  show getFilterAux (data.length + 1) ⟨0xa9, data⟩ = _
  simp [getFilterAux, h,
    getMatchingRuleAssertion_no_optional v dna tail htail,
    berClass, berTagNumber, berContextSpecificType, berClassContextSpecific,
    filterTypeAnd, filterTypeOr, filterTypeNot, filterTypeEqual,
    filterTypeGreaterOrEqual, filterTypeLessOrEqual, filterTypeApproxMatch,
    filterTypeSubstrings, filterTypePresent, filterTypeExtensibleMatch,
    filterTypeAbsoluteTrue, filterTypeAbsoluteFalse]
  rfl

/-- Witness for the C4 amended theorem at the concrete payload
`0x83 0x01 0x78 0x84 0x01 0xff` (a matchValue `x` followed by a `[4]`
dnAttributes boolean true, with neither `[1]` nor `[2]` present). -/
theorem c4_amended_bare_matchvalue_decodes_witness :
    getFilter ⟨0xa9, [0x83, 0x01, 0x78, 0x84, 0x01, 0xff]⟩ =
      .ok (.mra filterTypeExtensibleMatch ⟨[], [], [0x78], true⟩) :=
  c4_amended_bare_matchvalue_decodes [0x83, 0x01, 0x78, 0x84, 0x01, 0xff]
    [0x78] true [⟨0x84, [0xff]⟩] (by decide)
    (Or.inr ⟨[0xff], rfl, by decide⟩)

/-- C5 amended.  The element encoder produces the short length form (the
single byte `n`) only when the payload size `n` is below `0x80`; for
`0x80 ≤ n ≤ 0xffff` it always emits the count byte `0x82` followed by two
big-endian size bytes — so a size in `[0x80, 0xFF]` is encoded as
`0x82 0x00` and the size byte, never as `0x81` plus one byte — and the
produced element reads back as the original type and payload. -/
theorem c5_amended_two_byte_long_form (etype : Nat) (data : List Nat)
    (h1 : 0x80 ≤ data.length) (h2 : data.length ≤ 0xffff) :
    berEncodeElement etype data =
      some (etype :: 0x82 :: data.length / 256 % 256 :: data.length % 256 :: data) ∧
    berReadElement
        (etype :: 0x82 :: data.length / 256 % 256 :: data.length % 256 :: data) =
      .ok (⟨etype, data⟩, []) := by
  have hd1 : data.length / 256 % 256 = data.length / 256 :=
    Nat.mod_eq_of_lt (by omega)
  constructor
  · simp only [berEncodeElement]
    rw [if_neg (by omega), if_pos (by omega)]
  · simp only [berReadElement, berReadSize, readSizeBytes]
    rw [if_neg (by omega)]
    norm_num [Nat.shiftLeft_eq, hd1]
    rw [Nat.mod_eq_of_lt (a := data.length / 256 * 256)
      (by omega)]
    have : data.length / 256 * 256 + data.length % 256 = data.length := by
      omega
    rw [this]
    simp

/-- Witness for the C5 amended theorem on a 128-byte payload. -/
theorem c5_amended_two_byte_long_form_witness :
    berEncodeElement 0x04 (List.replicate 0x80 0) =
      some (0x04 :: 0x82 :: 0x00 :: 0x80 :: List.replicate 0x80 0) ∧
    berReadElement (0x04 :: 0x82 :: 0x00 :: 0x80 :: List.replicate 0x80 0) =
      .ok (⟨0x04, List.replicate 0x80 0⟩, []) := by
  have h := c5_amended_two_byte_long_form 0x04 (List.replicate 0x80 0)
    (by decide) (by decide)
  simpa using h

/-- Version field of any successfully parsed authentication choice: every
`ok` branch of `bindAuthChoice` stores `uint8(version)`. -/
theorem bindAuthChoice_ok_version (v : Int) (n : List Nat)
    (s2 : BerRawElement) (req : BindRequest)
    (h : bindAuthChoice v n s2 = .ok req) :
    req.version = (Int.emod v 256).toNat := by
  unfold bindAuthChoice at h
  split_ifs at h with h0 h3
  · cases h; rfl
  · rcases hs : berGetSequence s2.data with e | sseq <;> rw [hs] at h
    · cases h
    · split at h
      · cases h
      · split at h
        · cases h
        · cases h; rfl
      · split at h
        · cases h
        · split at h
          · cases h
          · cases h; rfl
      · cases h
  · cases h; rfl

/-- C6.  Every Bind request that decodes successfully has its version in
`[1, 127]` (the decoder rejects anything outside that range), and when
that version is not 3 the engine's Bind dispatch sends a BindResponse
(`TypeBindResponseOp`) carrying `protocolError` on the request's message
ID instead of invoking the handler's Bind callback. -/
theorem c6_bind_version_guard (mid : Nat) (data : List Nat) (req : BindRequest)
    (h : getBindRequest data = .ok req) (hv : req.version ≠ 3) :
    (1 ≤ req.version ∧ req.version ≤ 127) ∧
    handleBindMessage mid data =
      .sendResult mid typeBindResponseOp ldapResultProtocolError := by
  refine ⟨?_, by simp [handleBindMessage, h, hv]⟩
  unfold getBindRequest at h
  rcases hseq : berGetSequence data with e | seq <;> rw [hseq] at h
  · cases h
  · split at h
    · cases h
    · split at h
      · cases h
      · split at h
        · cases h
        · rename_i version hgi
          split at h
          · cases h
          · rename_i hguard
            split at h
            · cases h
            · split at h
              · cases h
              · have hver := bindAuthChoice_ok_version version _ _ req h
                have hid : Int.emod version 256 = version :=
                  Int.emod_eq_of_lt (by omega) (by omega)
                rw [hid] at hver
                omega
    · cases h

/-- Witness for C6 at the concrete Bind payload with version 1, empty name
and empty simple credentials. -/
theorem c6_bind_version_guard_witness :
    (1 ≤ (1 : Nat) ∧ (1 : Nat) ≤ 127) ∧
    handleBindMessage 5 [0x02, 0x01, 0x01, 0x04, 0x00, 0x80, 0x00] =
      .sendResult 5 typeBindResponseOp ldapResultProtocolError := by
  have h := c6_bind_version_guard 5 [0x02, 0x01, 0x01, 0x04, 0x00, 0x80, 0x00]
    ⟨1, [], 0, .simple []⟩ (by decide) (by decide)
  exact h

/-! Canonical escape-free DN strings, for the amended C3 round-trip. -/

/-- Canonical string of one attribute: `type ++ "=" ++ value`, the exact
output of `RDNAttribute.String` when no escaping fires. -/
def attrCanon (a : RDNAttribute) : List Nat :=
  a.atype ++ 61 :: a.value

/-- Canonical string of one RDN: attribute strings joined with `+`. -/
def rdnCanon (r : RDN) : List Nat :=
  joinSep 43 (r.map attrCanon)

/-- Canonical string of a DN: RDN strings, leaf first, joined with
commas. -/
def dnCanon (d : DN) : List Nat :=
  joinSep 44 (d.reverse.map rdnCanon)

/-- Value bytes that neither the formatter escapes nor the parser
rewrites: printable non-space ASCII excluding the RFC 4514 special
characters and `#`. -/
def PlainValueByte (b : Nat) : Prop :=
  33 ≤ b ∧ b ≤ 126 ∧ b ≠ 34 ∧ b ≠ 35 ∧ b ≠ 43 ∧ b ≠ 44 ∧ b ≠ 59 ∧
    b ≠ 60 ∧ b ≠ 61 ∧ b ≠ 62 ∧ b ≠ 92

instance (b : Nat) : Decidable (PlainValueByte b) := by
  unfold PlainValueByte; infer_instance

/-- ASCII letters — attribute types made of these never validate as
numeric OIDs, so the formatter never chooses the hex-BER form. -/
def LetterByte (b : Nat) : Prop :=
  (65 ≤ b ∧ b ≤ 90) ∨ (97 ≤ b ∧ b ≤ 122)

instance (b : Nat) : Decidable (LetterByte b) := by
  unfold LetterByte; infer_instance

/-- An attribute whose canonical string is fixed by both directions: a
non-empty all-letter type and an all-plain value. -/
def SafeAttr (a : RDNAttribute) : Prop :=
  a.atype ≠ [] ∧ (∀ c ∈ a.atype, LetterByte c) ∧ ∀ c ∈ a.value, PlainValueByte c

instance (a : RDNAttribute) : Decidable (SafeAttr a) := by
  unfold SafeAttr; infer_instance

/-- A non-empty DN of non-empty RDNs of safe attributes. -/
def SafeDN (d : DN) : Prop :=
  d ≠ [] ∧ ∀ r ∈ d, r ≠ [] ∧ ∀ a ∈ r, SafeAttr a

instance (d : DN) : Decidable (SafeDN d) := by
  unfold SafeDN; infer_instance

theorem oidValidate_letters (t : List Nat) (ht : t ≠ [])
    (hl : ∀ c ∈ t, LetterByte c) : oidValidate t = false := by
  rcases t with _ | ⟨c, rest⟩
  · exact absurd rfl ht
  · have hc := hl c (by simp)
    rcases hc with ⟨h1, h2⟩ | ⟨h1, h2⟩ <;>
      · show oidMatch (c :: rest) false = false
        unfold oidMatch
        rw [if_neg (by omega), if_neg (by omega)]

theorem escapeValueLoop_plain (v : List Nat)
    (hv : ∀ c ∈ v, PlainValueByte c) :
    ∀ n i, escapeValueLoop n i v = v := by
  induction v with
  | nil => intro n i; rfl
  | cons b rest ih =>
    intro n i
    have hb := hv b (by simp)
    obtain ⟨hb1, hb2, hb3, hb4, hb5, hb6, hb7, hb8, hb9, hb10, hb11⟩ := hb
    unfold escapeValueLoop
    rw [if_neg (by omega), if_neg (by omega), if_neg (by omega),
      if_neg (by omega), if_pos (by simp [goIsPrint]; omega)]
    rw [ih (fun c hc => hv c (by simp [hc])) n (i + 1)]

theorem rdnAttributeString_safe (a : RDNAttribute) (h : SafeAttr a) :
    rdnAttributeString a = some (attrCanon a) := by
  obtain ⟨h1, h2, h3⟩ := h
  unfold rdnAttributeString
  rw [oidValidate_letters a.atype h1 h2]
  simp [escapeValueLoop_plain a.value h3, attrCanon]

theorem rdnAttributeStrings_safe (r : List RDNAttribute)
    (h : ∀ a ∈ r, SafeAttr a) :
    rdnAttributeStrings r = some (r.map attrCanon) := by
  induction r with
  | nil => rfl
  | cons a rest ih =>
    unfold rdnAttributeStrings
    rw [rdnAttributeString_safe a (h a (by simp))]
    rw [ih (fun x hx => h x (by simp [hx]))]
    rfl

theorem rdnString_safe (r : RDN) (h : ∀ a ∈ r, SafeAttr a) :
    rdnString r = some (rdnCanon r) := by
  unfold rdnString rdnCanon
  rw [rdnAttributeStrings_safe r h]
  rfl

theorem rdnStrings_safe (l : List RDN)
    (h : ∀ r ∈ l, ∀ a ∈ r, SafeAttr a) :
    rdnStrings l = some (l.map rdnCanon) := by
  induction l with
  | nil => rfl
  | cons r rest ih =>
    unfold rdnStrings
    rw [rdnString_safe r (h r (by simp))]
    rw [ih (fun x hx => h x (by simp [hx]))]
    rfl

theorem dnString_safe (d : DN) (h : SafeDN d) :
    dnString d = some (dnCanon d) := by
  unfold dnString dnCanon
  rw [rdnStrings_safe d.reverse
    (fun r hr => (h.2 r (by simpa using hr)).2)]
  rfl

theorem mem_joinSep {sep c : Nat} :
    ∀ {parts : List (List Nat)}, c ∈ joinSep sep parts →
      c = sep ∨ ∃ p ∈ parts, c ∈ p := by
  intro parts
  induction parts with
  | nil => intro hc; cases hc
  | cons x xs ih =>
    intro hc
    rcases xs with _ | ⟨y, ys⟩
    · exact Or.inr ⟨x, by simp, hc⟩
    · rcases List.mem_append.mp hc with hx | hrest
      · exact Or.inr ⟨x, by simp, hx⟩
      · rcases List.mem_cons.mp hrest with hsep | htail
        · exact Or.inl hsep
        · rcases ih htail with h | ⟨p, hp, hcp⟩
          · exact Or.inl h
          · exact Or.inr ⟨p, by simp [hp], hcp⟩

theorem joinSep_ne_nil {sep : Nat} {p : List Nat} {parts : List (List Nat)}
    (hp : p ≠ []) : joinSep sep (p :: parts) ≠ [] := by
  rcases parts with _ | ⟨q, qs⟩
  · simpa [joinSep] using hp
  · simp [joinSep]

theorem mem_attrCanon {a : RDNAttribute} (h : SafeAttr a) {c : Nat}
    (hc : c ∈ attrCanon a) : LetterByte c ∨ c = 61 ∨ PlainValueByte c := by
  unfold attrCanon at hc
  rcases List.mem_append.mp hc with ht | hv
  · exact Or.inl (h.2.1 c ht)
  · rcases List.mem_cons.mp hv with h61 | hval
    · exact Or.inr (Or.inl h61)
    · exact Or.inr (Or.inr (h.2.2 c hval))

theorem attrCanon_byte_range {a : RDNAttribute} (h : SafeAttr a) {c : Nat}
    (hc : c ∈ attrCanon a) : c ≠ 92 ∧ c ≠ 44 ∧ c ≠ 43 := by
  rcases mem_attrCanon h hc with hl | h61 | hp
  · unfold LetterByte at hl; omega
  · omega
  · unfold PlainValueByte at hp; omega

theorem mem_rdnCanon {r : RDN} (h : ∀ a ∈ r, SafeAttr a) {c : Nat}
    (hc : c ∈ rdnCanon r) : c ≠ 92 ∧ c ≠ 44 := by
  unfold rdnCanon at hc
  rcases mem_joinSep hc with rfl | ⟨p, hp, hcp⟩
  · omega
  · rcases List.mem_map.mp hp with ⟨a, ha, rfl⟩
    have := attrCanon_byte_range (h a ha) hcp
    omega

theorem mem_dnCanon {d : DN} (h : SafeDN d) {c : Nat}
    (hc : c ∈ dnCanon d) : c ≠ 92 := by
  unfold dnCanon at hc
  rcases mem_joinSep hc with rfl | ⟨p, hp, hcp⟩
  · omega
  · rcases List.mem_map.mp hp with ⟨r, hr, rfl⟩
    have hr2 : r ∈ d := by simpa using hr
    exact (mem_rdnCanon (h.2 r hr2).2 hcp).1

theorem attrCanon_ne_nil {a : RDNAttribute} (h : SafeAttr a) :
    attrCanon a ≠ [] := by
  unfold attrCanon
  rcases ha : a.atype with _ | _
  · exact absurd ha h.1
  · simp

theorem rdnCanon_ne_nil {r : RDN} (hr : r ≠ []) (h : ∀ a ∈ r, SafeAttr a) :
    rdnCanon r ≠ [] := by
  rcases r with _ | ⟨a, rest⟩
  · exact absurd rfl hr
  · exact joinSep_ne_nil (attrCanon_ne_nil (h a (by simp)))

theorem dnCanon_ne_nil {d : DN} (h : SafeDN d) : dnCanon d ≠ [] := by
  rcases hd : d.reverse with _ | ⟨r, rest⟩
  · exact absurd (by simpa using congrArg List.reverse hd) h.1
  · have hr : r ∈ d := by
      have : r ∈ d.reverse := by simp [hd]
      simpa using this
    unfold dnCanon
    rw [hd]
    simp only [List.map_cons]
    exact joinSep_ne_nil (rdnCanon_ne_nil (h.2 r hr).1 (h.2 r hr).2)

theorem slashScan_no92 {s : List Nat} (h : ∀ c ∈ s, c ≠ 92) :
    ∀ j, slashScan s j = j := by
  intro j
  cases j with
  | zero => rfl
  | succ k =>
    unfold slashScan
    rw [if_neg]
    rcases hg : s[k]? with _ | x
    · simp [List.getD_eq_getElem?_getD, hg]
    · have hx : x ∈ s := List.getElem?_mem hg
      simp [List.getD_eq_getElem?_getD, hg]
      exact h x hx

theorem splitSepLoop_skip (s : List Nat) (sep : Nat)
    (p : List Nat) (hp : sep ∉ p) :
    ∀ i start rest2, s.drop i = p ++ rest2 →
      splitSepLoop s sep (p ++ rest2) i start =
        splitSepLoop s sep rest2 (i + p.length) start := by
  induction p with
  | nil => intro i start rest2 _; simp
  | cons c p2 ih =>
    intro i start rest2 hdrop
    have hc : c ≠ sep := fun h => hp (h ▸ by simp)
    show splitSepLoop s sep (c :: (p2 ++ rest2)) i start = _
    conv_lhs => rw [splitSepLoop]
    rw [if_neg (by intro h; exact hc h.1)]
    have hdrop2 : s.drop (i + 1) = p2 ++ rest2 := by
      have := congrArg List.tail hdrop
      simpa [List.tail_drop] using this
    have harith : i + (c :: p2).length = i + 1 + p2.length := by
      simp only [List.length_cons]
      omega
    rw [harith]
    exact ih (fun h => hp (by simp [h])) (i + 1) start rest2 hdrop2

theorem splitSepLoop_join (s : List Nat) (sep : Nat)
    (h92 : ∀ c ∈ s, c ≠ 92) :
    ∀ (parts : List (List Nat)) (start : Nat), parts ≠ [] →
      (∀ p ∈ parts, sep ∉ p) →
      s.drop start = joinSep sep parts →
      splitSepLoop s sep (joinSep sep parts) start start = parts := by
  intro parts
  induction parts with
  | nil => intro start hne _ _; exact absurd rfl hne
  | cons p parts2 ih =>
    intro start _ hfree hdrop
    rcases parts2 with _ | ⟨q, qs⟩
    · have hdropP : s.drop start = p := hdrop
      have hskip := splitSepLoop_skip s sep p (hfree p (by simp)) start start []
        (by simpa using hdropP)
      have hpe : joinSep sep [p] = p := rfl
      have hpe2 : splitSepLoop s sep p start start =
          splitSepLoop s sep (p ++ []) start start := by
        rw [List.append_nil]
      rw [hpe, hpe2, hskip]
      show [(s.drop start).take (s.length - start)] = [p]
      have hlen : s.length - start = p.length := by
        rw [← hdropP, List.length_drop]
      rw [hdropP, hlen, List.take_length]
    · have hjoin : joinSep sep (p :: q :: qs) = p ++ sep :: joinSep sep (q :: qs) := rfl
      have hdropstart : s.drop start = p ++ sep :: joinSep sep (q :: qs) := by
        rw [hdrop, hjoin]
      rw [hjoin]
      rw [splitSepLoop_skip s sep p (hfree p (by simp)) start start
        (sep :: joinSep sep (q :: qs)) hdropstart]
      conv_lhs => rw [splitSepLoop]
      rw [if_pos ⟨rfl, by rw [slashScan_no92 h92]; omega⟩]
      have hslice : (s.drop start).take (start + p.length - start) = p := by
        rw [hdropstart]
        have he : start + p.length - start = p.length := by omega
        rw [he, List.take_left]
      rw [hslice]
      have hdropmid : s.drop (start + p.length) = sep :: joinSep sep (q :: qs) := by
        have hdd := congrArg (List.drop p.length) hdropstart
        rw [List.drop_drop] at hdd
        rw [hdd, List.drop_left]
      have hdrop2 : s.drop (start + p.length + 1) = joinSep sep (q :: qs) := by
        have := congrArg List.tail hdropmid
        simpa [List.tail_drop] using this
      rw [ih (start + p.length + 1) (by simp)
        (fun x hx => hfree x (by simp [hx])) hdrop2]

theorem splitAttrs_canon (r : RDN) (hr : r ≠ []) (h : ∀ a ∈ r, SafeAttr a) :
    splitAttrs (rdnCanon r) = r.map attrCanon := by
  have hne := rdnCanon_ne_nil hr h
  unfold splitAttrs
  split
  · rename_i heq; exact absurd heq hne
  · rename_i x xs heq
    have h92 : ∀ c ∈ rdnCanon r, c ≠ 92 := fun c hc => (mem_rdnCanon h hc).1
    have hfree : ∀ p ∈ r.map attrCanon, (43 : Nat) ∉ p := by
      intro p hp hmem
      rcases List.mem_map.mp hp with ⟨a, ha, rfl⟩
      exact (attrCanon_byte_range (h a ha) hmem).2.2 rfl
    have hdrop : (rdnCanon r).drop 0 = joinSep 43 (r.map attrCanon) := by
      simp [rdnCanon]
    have := splitSepLoop_join (rdnCanon r) 43 h92 (r.map attrCanon) 0
      (by simpa using hr) hfree hdrop
    rw [show joinSep 43 (r.map attrCanon) = rdnCanon r from rfl] at this
    exact this

theorem splitRDNs_canon (d : DN) (h : SafeDN d) :
    splitRDNs (dnCanon d) = d.map rdnCanon := by
  have hne := dnCanon_ne_nil h
  unfold splitRDNs
  split
  · rename_i heq; exact absurd heq hne
  · rename_i x xs heq
    have h92 : ∀ c ∈ dnCanon d, c ≠ 92 := fun c hc => mem_dnCanon h hc
    have hfree : ∀ p ∈ d.reverse.map rdnCanon, (44 : Nat) ∉ p := by
      intro p hp hmem
      rcases List.mem_map.mp hp with ⟨r, hr, rfl⟩
      have hr2 : r ∈ d := by simpa using hr
      exact (mem_rdnCanon (h.2 r hr2).2 hmem).2 rfl
    have hpne : d.reverse.map rdnCanon ≠ [] := by
      simpa using h.1
    have hdrop : (dnCanon d).drop 0 = joinSep 44 (d.reverse.map rdnCanon) := by
      simp [dnCanon]
    have hj := splitSepLoop_join (dnCanon d) 44 h92 (d.reverse.map rdnCanon) 0
      hpne hfree hdrop
    rw [show joinSep 44 (d.reverse.map rdnCanon) = dnCanon d from rfl] at hj
    rw [hj, List.map_reverse, List.reverse_reverse]

theorem splitAttrGo_canon (v : List Nat) :
    ∀ (t acc : List Nat), (61 : Nat) ∉ t →
      splitAttrGo (t ++ 61 :: v) acc = [acc.reverse ++ t, v] := by
  intro t
  induction t with
  | nil => intro acc _; simp [splitAttrGo]
  | cons c t2 ih =>
    intro acc hc
    have hc1 : c ≠ 61 := fun h => hc (h ▸ by simp)
    show splitAttrGo (c :: (t2 ++ 61 :: v)) acc = _
    unfold splitAttrGo
    rw [if_neg hc1, ih (c :: acc) (fun h => hc (by simp [h]))]
    simp

theorem splitAttr_canon (a : RDNAttribute) (h : SafeAttr a) :
    splitAttr (attrCanon a) = [a.atype, a.value] := by
  have h61 : (61 : Nat) ∉ a.atype := by
    intro hmem
    have := h.2.1 61 hmem
    unfold LetterByte at this
    omega
  unfold splitAttr attrCanon
  rw [splitAttrGo_canon a.value a.atype [] h61]
  simp

theorem unescapeLoopAux_plain (v : List Nat) (h : ∀ c ∈ v, c ≠ 92) :
    ∀ fuel, v.length ≤ fuel → unescapeLoopAux fuel v = v := by
  induction v with
  | nil => intro fuel _; cases fuel <;> rfl
  | cons b rest ih =>
    intro fuel hf
    rcases fuel with _ | f
    · simp at hf
    · show unescapeLoopAux (f + 1) (b :: rest) = b :: rest
      unfold unescapeLoopAux
      rw [if_neg (h b (by simp))]
      rw [ih (fun c hc => h c (by simp [hc])) f (by simpa using hf)]

theorem decodeRDNAttributeValue_plain (v : List Nat)
    (h : ∀ c ∈ v, PlainValueByte c) :
    decodeRDNAttributeValue v = some (.ok v) := by
  rcases v with _ | ⟨c, rest⟩
  · rfl
  · have hc := h c (by simp)
    have h92 : ∀ x ∈ c :: rest, x ≠ 92 := by
      intro x hx
      have := h x hx
      unfold PlainValueByte at this
      omega
    simp only [decodeRDNAttributeValue]
    rw [if_neg (by unfold PlainValueByte at hc; omega)]
    unfold unescapeLoop
    rw [unescapeLoopAux_plain (c :: rest) h92 (c :: rest).length le_rfl]

theorem parseAttrList_canon (r : List RDNAttribute)
    (h : ∀ a ∈ r, SafeAttr a) :
    parseAttrList (r.map attrCanon) = some (.ok r) := by
  induction r with
  | nil => rfl
  | cons a rest ih =>
    show parseAttrList (attrCanon a :: rest.map attrCanon) = _
    simp only [parseAttrList, splitAttr_canon a (h a (by simp)),
      decodeRDNAttributeValue_plain a.value (h a (by simp)).2.2,
      ih (fun x hx => h x (by simp [hx]))]

theorem parseRDNList_canon (l : List RDN)
    (h : ∀ r ∈ l, r ≠ [] ∧ ∀ a ∈ r, SafeAttr a) :
    parseRDNList (l.map rdnCanon) = some (.ok l) := by
  induction l with
  | nil => rfl
  | cons r rest ih =>
    show parseRDNList (rdnCanon r :: rest.map rdnCanon) = _
    simp only [parseRDNList, splitAttrs_canon r (h r (by simp)).1 (h r (by simp)).2,
      parseAttrList_canon r (h r (by simp)).2,
      ih (fun x hx => h x (by simp [hx]))]

theorem parseDN_canon (d : DN) (h : SafeDN d) :
    parseDN (dnCanon d) = some (.ok d) := by
  unfold parseDN
  rw [splitRDNs_canon d h]
  exact parseRDNList_canon d h.2

/-- C3 amended.  The exact round-trip `format (parse s) = s` holds for
every DN string in the formatter's canonical escape-free form: whenever
`s` is the formatted string of a DN whose attribute types are non-empty
ASCII-letter strings and whose values consist of printable ASCII with
none of the RFC 4514 special characters, `#`, or space (`SafeDN`),
`ParseDN` accepts `s` and formatting the parse result returns exactly
`s`.  (The original unrestricted claim fails on escape sequences, which
the parser normalises — see the counterexample.) -/
theorem c3_amended_canonical_roundtrip (d : DN) (s : List Nat)
    (hd : SafeDN d) (hs : dnString d = some s) :
    ∃ d2, parseDN s = some (.ok d2) ∧ dnString d2 = some s := by
  have hcanon := dnString_safe d hd
  rw [hcanon] at hs
  have hseq : s = dnCanon d := by
    injection hs with hs2
    exact hs2.symm
  subst hseq
  exact ⟨d, parseDN_canon d hd, hcanon⟩

/-- Witness for the C3 amended theorem on the DN
`dc=example,dc=com` (root-first in memory: `com` before `example`). -/
theorem c3_amended_canonical_roundtrip_witness :
    ∃ d2, parseDN [0x64, 0x63, 0x3d, 0x65, 0x78, 0x61, 0x6d, 0x70, 0x6c,
        0x65, 0x2c, 0x64, 0x63, 0x3d, 0x63, 0x6f, 0x6d] = some (.ok d2) ∧
      dnString d2 = some [0x64, 0x63, 0x3d, 0x65, 0x78, 0x61, 0x6d, 0x70,
        0x6c, 0x65, 0x2c, 0x64, 0x63, 0x3d, 0x63, 0x6f, 0x6d] :=
  c3_amended_canonical_roundtrip
    [[⟨[0x64, 0x63], [0x63, 0x6f, 0x6d]⟩],
     [⟨[0x64, 0x63], [0x65, 0x78, 0x61, 0x6d, 0x70, 0x6c, 0x65]⟩]]
    [0x64, 0x63, 0x3d, 0x65, 0x78, 0x61, 0x6d, 0x70, 0x6c, 0x65, 0x2c,
     0x64, 0x63, 0x3d, 0x63, 0x6f, 0x6d]
    (by decide) (by decide)

end LdapServer
